import Mathlib

/-
  Verification development for the caffeine-tracker component
  (src/components/CaffeineCalculator.tsx).

  The component's logic is embedded shallowly:
  * `CaffeineEntry` mirrors the `CaffeineEntry` interface (id?, date, time, amount).
  * JavaScript `Date` values are embedded as `DateTime` records (proleptic
    Gregorian calendar, minute resolution); `toMinutes` plays the role of
    `Date.prototype.getTime` (up to the affine change of units/epoch, which
    cancels in every difference the code takes).
  * `parseEntry` models the parse of `new Date(`${year}/${date} ${time}`)`
    for the `MM/DD` / `HH:MM` shapes the form collects: a string that does
    not yield a valid calendar date and 24-hour wall-clock time produces an
    Invalid Date in JavaScript, here `none`; in the source every arithmetic
    use of an Invalid Date (comparison, subtraction, the `>= 0` guard)
    collapses to "this entry contributes nothing", which the `none` branch
    reproduces.
  * Real arithmetic stands in for IEEE doubles; `Math.pow` on a positive
    base is real exponentiation `Real.rpow`.
-/

open Filter

/-- One logged intake event, mirroring `interface CaffeineEntry`
(`id?: string; date: string; time: string; amount: number`). -/
structure CaffeineEntry where
  id : Option String
  date : String
  time : String
  amount : ℝ

/-- A calendar instant at minute resolution: the year carried by a JavaScript
`Date` plus month, day and wall-clock time. -/
structure DateTime where
  year : ℤ
  month : ℕ
  day : ℕ
  hour : ℕ
  minute : ℕ
deriving DecidableEq

/-- Gregorian leap-year rule, as used by the JavaScript `Date` calendar. -/
def isLeap (y : ℤ) : Bool :=
  (y % 4 == 0 && !(y % 100 == 0)) || (y % 400 == 0)

/-- Days in the non-leap year strictly before the first day of month `m`. -/
def cumDays : ℕ → ℤ
  | 1 => 0
  | 2 => 31
  | 3 => 59
  | 4 => 90
  | 5 => 120
  | 6 => 151
  | 7 => 181
  | 8 => 212
  | 9 => 243
  | 10 => 273
  | 11 => 304
  | 12 => 334
  | _ => 365

/-- Length of month `m` in a year whose leap flag is `leap`. -/
def daysInMonth (leap : Bool) : ℕ → ℕ
  | 1 => 31
  | 2 => if leap then 29 else 28
  | 3 => 31
  | 4 => 30
  | 5 => 31
  | 6 => 30
  | 7 => 31
  | 8 => 31
  | 9 => 30
  | 10 => 31
  | 11 => 30
  | 12 => 31
  | _ => 0

/-- Number of leap years strictly before year `y` (relative to year 1;
only differences of this quantity are ever used). -/
def leapsBefore (y : ℤ) : ℤ :=
  (y - 1) / 4 - (y - 1) / 100 + (y - 1) / 400

/-- Day index of the calendar date `y-m-d` on a linear day count.
Out-of-range months/days extrapolate linearly, matching the rollover
behaviour of JavaScript `Date` component arithmetic (e.g. Feb 29 of a
non-leap year denotes Mar 1). -/
def toDays (y : ℤ) (m d : ℕ) : ℤ :=
  365 * (y - 1) + leapsBefore y + cumDays m
    + (if isLeap y = true ∧ 3 ≤ m then 1 else 0) + ((d : ℤ) - 1)

/-- Minutes past midnight. -/
def timeOfDay (t : DateTime) : ℤ :=
  60 * (t.hour : ℤ) + (t.minute : ℤ)

/-- Linear instant of a `DateTime` in minutes: the role `getTime()` (in
milliseconds) plays in the source, in coarser units and with a different
epoch; both differences cancel in every comparison and subtraction the
component performs. -/
def toMinutes (t : DateTime) : ℤ :=
  1440 * toDays t.year t.month t.day + timeOfDay t

/-- Split a character list at every occurrence of `sep`. -/
def splitOnChar (sep : Char) : List Char → List (List Char)
  | [] => [[]]
  | x :: xs =>
    if x = sep then [] :: splitOnChar sep xs
    else
      match splitOnChar sep xs with
      | [] => [[x]]
      | y :: ys => (x :: y) :: ys

/-- The numeric value of a decimal digit character. -/
def digit? (ch : Char) : Option ℕ :=
  if 48 ≤ ch.toNat ∧ ch.toNat ≤ 57 then some (ch.toNat - 48) else none

/-- A nonempty all-digit character list read as a decimal numeral. -/
def natOfDigits? (l : List Char) : Option ℕ :=
  match l with
  | [] => none
  | _ =>
    l.foldl
      (fun acc ch =>
        match acc, digit? ch with
        | some n, some d => some (10 * n + d)
        | _, _ => none)
      (some 0)

/-- Parse `"a<sep>b"` into two numerals. -/
def parseTwoNat (s : String) (sep : Char) : Option (ℕ × ℕ) :=
  match splitOnChar sep s.toList with
  | [a, b] =>
    match natOfDigits? a, natOfDigits? b with
    | some x, some y => some (x, y)
    | _, _ => none
  | _ => none

/-- Models line 57, `new Date(`${now.getFullYear()}/${entry.date} ${entry.time}`)`:
the candidate timestamp is the current calendar year combined with the
entry's `MM/DD` date and `HH:MM` time-of-day. Strings that do not denote a
valid calendar date and 24-hour time give an Invalid Date, embedded as
`none`. -/
def parseEntry (year : ℤ) (date time : String) : Option DateTime :=
  match parseTwoNat date (Char.ofNat 47), parseTwoNat time (Char.ofNat 58) with
  | some (m, d), some (hh, mm) =>
    if 1 ≤ m ∧ m ≤ 12 ∧ 1 ≤ d ∧ d ≤ daysInMonth (isLeap year) m ∧ hh ≤ 23 ∧ mm ≤ 59 then
      some ⟨year, m, d, hh, mm⟩
    else none
  | _, _ => none

/-- Lines 60-62: `if (entryDate > now) entryDate.setFullYear(entryDate.getFullYear() - 1)`.
A candidate strictly later than `now` is rolled back by exactly one calendar
year. -/
def adjustEntryDate (now dt : DateTime) : DateTime :=
  if toMinutes now < toMinutes dt then { dt with year := dt.year - 1 } else dt

/-- The year-adjusted instant (in minutes) of one entry, or `none` when the
entry's strings fail to parse. -/
def adjustedMinutes (now : DateTime) (e : CaffeineEntry) : Option ℤ :=
  (parseEntry now.year e.date e.time).map (fun dt => toMinutes (adjustEntryDate now dt))

/-- Line 65: `(now.getTime() - entryDate.getTime()) / (1000 * 60 * 60)`,
expressed over minutes. -/
def hoursElapsed (nowMin entryMin : ℤ) : ℚ :=
  ((nowMin - entryMin : ℤ) : ℚ) / 60

/-- Lines 69-72: if at least zero hours have elapsed the entry contributes
`amount * 0.5 ^ (hoursElapsed / 6)`, otherwise nothing. -/
noncomputable def decay (amount : ℝ) (h : ℚ) : ℝ :=
  if 0 ≤ h then amount * (1 / 2 : ℝ) ^ ((h : ℝ) / 6) else 0

/-- The contribution of a single entry to the running total (the body of the
`entries.forEach` loop, lines 55-73). -/
noncomputable def entryResidual (now : DateTime) (e : CaffeineEntry) : ℝ :=
  match adjustedMinutes now e with
  | none => 0
  | some t => decay e.amount (hoursElapsed (toMinutes now) t)

/-- `calculateRemainingCaffeine` (lines 51-76): accumulate the per-entry
contributions into `total` and clamp with `Math.max(0, total)`. -/
noncomputable def calculateRemainingCaffeine (now : DateTime) (entries : List CaffeineEntry) : ℝ :=
  max 0 (entries.foldl (fun total e => total + entryResidual now e) 0)

/-- `getCaffeineLevel` (lines 202-208). -/
noncomputable def getCaffeineLevel (remainingCaffeine : ℝ) : String :=
  if remainingCaffeine > 200 then "Very High"
  else if remainingCaffeine > 100 then "High"
  else if remainingCaffeine > 50 then "Moderate"
  else if remainingCaffeine > 10 then "Low"
  else "Minimal"

/-- The `newEntry` form state (lines 24-28). -/
structure NewEntryForm where
  date : String
  time : String
  amount : String
deriving DecidableEq

/-- The component state touched by the estimator and by `addEntry`:
`entries`, `newEntry`, `remainingCaffeine`, `loading`. -/
structure ComponentState where
  entries : List CaffeineEntry
  newEntry : NewEntryForm
  remainingCaffeine : ℝ
  loading : Bool

/-- The effect of one timer tick (lines 47-49, 51-76): recompute the residual
from the current entry snapshot and store it in `remainingCaffeine`. -/
noncomputable def recompute (now : DateTime) (s : ComponentState) : ComponentState :=
  { s with remainingCaffeine := calculateRemainingCaffeine now s.entries }

/-- Models JavaScript `parseFloat` on the amount input: an optional sign,
an integer part and an optional decimal fraction; anything else is NaN,
embedded as `none`. -/
def parseFloat? (s : String) : Option ℚ :=
  let core := fun (t : List Char) =>
    match splitOnChar (Char.ofNat 46) t with
    | [a] => (natOfDigits? a).map (fun n => (n : ℚ))
    | [a, b] =>
      match natOfDigits? a, natOfDigits? b with
      | some n, some f => some ((n : ℚ) + (f : ℚ) / (10 : ℚ) ^ b.length)
      | _, _ => none
    | _ => none
  match s.toList with
  | c :: rest => if c = Char.ofNat 45 then (core rest).map (fun q => -q) else core (c :: rest)
  | [] => none

/-- A persistence call issued by `addEntry`: the insert into
`caffeine_entries` (lines 121-130). -/
inductive Effect where
  | insertEntry (userId : String) (entryDate : String) (entryTime : String) (amountMg : ℚ)
deriving DecidableEq

/-- `addEntry` (lines 111-166), as a state transformer returning the final
state after the handler completes together with the list of persistence
calls it issued. `user` is the signed-in user's id (`none` when signed out);
`db` is the outcome of the insert (`ok id` for a created row, `error` for a
rejected one — including the case of an unparsable amount, which the
database's numeric column rejects). Line 112 is the guard: an empty date,
time or amount field, or no user, returns immediately — no persistence call,
no state change. On success the new entry is prepended and the form is
cleared (lines 142-150); `loading` ends `false` via the `finally` block. The
ISO re-formatting of the persisted date (lines 117-119) is abstracted: the
effect carries the raw form fields. -/
def addEntry (user : Option String) (db : Except String String) (s : ComponentState) :
    ComponentState × List Effect :=
  if s.newEntry.date = "" ∨ s.newEntry.time = "" ∨ s.newEntry.amount = "" ∨ user = none then
    (s, [])
  else
    match user, parseFloat? s.newEntry.amount with
    | some uid, some amt =>
      let eff := [Effect.insertEntry uid s.newEntry.date s.newEntry.time amt]
      match db with
      | .error _ => ({ s with loading := false }, eff)
      | .ok newId =>
        ({ s with
            entries := { id := some newId, date := s.newEntry.date, time := s.newEntry.time,
                         amount := (amt : ℝ) } :: s.entries,
            newEntry := ⟨"", "", ""⟩,
            loading := false }, eff)
    | some uid, none =>
      ({ s with loading := false },
        [Effect.insertEntry uid s.newEntry.date s.newEntry.time 0])
    | none, _ => (s, [])

/-- The spec's description of one entry's term in the sum `S`: zero for an
entry whose elapsed hours `h` are negative (or whose strings do not parse),
`amountMg * 0.5 ^ (h / 6)` otherwise, with `h` measured from the
year-adjusted timestamp. Stated from the spec's words, to be compared with
the source's `entryResidual`. -/
noncomputable def specContribution (now : DateTime) (e : CaffeineEntry) : ℝ :=
  match adjustedMinutes now e with
  | none => 0
  | some t =>
    if hoursElapsed (toMinutes now) t < 0 then 0
    else e.amount * (1 / 2 : ℝ) ^ ((hoursElapsed (toMinutes now) t : ℝ) / 6)

/-- The spec's estimator: `max(0, S)` with `S` the sum of the per-entry
contributions. Stated from the spec's words. -/
noncomputable def specResidual (now : DateTime) (entries : List CaffeineEntry) : ℝ :=
  max 0 ((entries.map (specContribution now)).sum)

/- ### General lemmas about the accumulation loop -/

lemma foldl_add_eq (f : CaffeineEntry → ℝ) :
    ∀ (l : List CaffeineEntry) (t : ℝ),
      l.foldl (fun acc e => acc + f e) t = t + (l.map f).sum := by
  intro l
  induction l with
  | nil => intro t; simp
  | cons e l ih => intro t; simp [ih, add_assoc]

lemma calc_eq_sum (now : DateTime) (entries : List CaffeineEntry) :
    calculateRemainingCaffeine now entries
      = max 0 ((entries.map (entryResidual now)).sum) := by
  unfold calculateRemainingCaffeine
  rw [foldl_add_eq, zero_add]

lemma entryResidual_eq_specContribution (now : DateTime) (e : CaffeineEntry) :
    entryResidual now e = specContribution now e := by
  cases hadj : adjustedMinutes now e with
  | none => simp [entryResidual, specContribution, hadj]
  | some t =>
    simp only [entryResidual, specContribution, hadj, decay]
    by_cases h : 0 ≤ hoursElapsed (toMinutes now) t
    · rw [if_pos h, if_neg (not_lt.mpr h)]
    · rw [if_neg h, if_pos (lt_of_not_ge h)]

/-- C1: for every list of dose entries and every instant `now`, the estimator
returns `max(0, S)` where `S` sums `amountMg * 0.5 ^ (h / 6)` over the
entries (`h` the hours elapsed from the year-adjusted timestamp to `now`),
an entry with `h < 0` contributing zero. Entries whose strings fail to parse
have no instant and contribute zero on both sides (their handling is claim
C8). -/
theorem calculateRemainingCaffeine_eq_specResidual
    (now : DateTime) (entries : List CaffeineEntry) :
    calculateRemainingCaffeine now entries = specResidual now entries := by
  rw [calc_eq_sum]
  unfold specResidual
  have hmap : entryResidual now = specContribution now :=
    funext (entryResidual_eq_specContribution now)
  rw [hmap]

/-- C6: the residual is nonnegative for every entry list and every `now`,
regardless of the sign or magnitude of any amount. -/
theorem calculateRemainingCaffeine_nonneg
    (now : DateTime) (entries : List CaffeineEntry) :
    0 ≤ calculateRemainingCaffeine now entries :=
  le_max_left 0 _

/-- C3: the severity label is decided by strict-greater-than thresholds in
descending order, first match winning; in particular a residual of exactly
100 is labelled Moderate, not High. -/
theorem getCaffeineLevel_thresholds :
    (∀ r : ℝ,
      (200 < r → getCaffeineLevel r = "Very High") ∧
      (100 < r → r ≤ 200 → getCaffeineLevel r = "High") ∧
      (50 < r → r ≤ 100 → getCaffeineLevel r = "Moderate") ∧
      (10 < r → r ≤ 50 → getCaffeineLevel r = "Low") ∧
      (r ≤ 10 → getCaffeineLevel r = "Minimal")) ∧
    getCaffeineLevel 100 = "Moderate" := by
  have main : ∀ r : ℝ,
      (200 < r → getCaffeineLevel r = "Very High") ∧
      (100 < r → r ≤ 200 → getCaffeineLevel r = "High") ∧
      (50 < r → r ≤ 100 → getCaffeineLevel r = "Moderate") ∧
      (10 < r → r ≤ 50 → getCaffeineLevel r = "Low") ∧
      (r ≤ 10 → getCaffeineLevel r = "Minimal") := by
    intro r
    refine ⟨?_, ?_, ?_, ?_, ?_⟩
    · intro h1
      unfold getCaffeineLevel
      rw [if_pos h1]
    · intro h1 h2
      unfold getCaffeineLevel
      rw [if_neg (not_lt.mpr h2), if_pos h1]
    · intro h1 h2
      unfold getCaffeineLevel
      rw [if_neg (not_lt.mpr (h2.trans (by norm_num))), if_neg (not_lt.mpr h2), if_pos h1]
    · intro h1 h2
      unfold getCaffeineLevel
      rw [if_neg (not_lt.mpr (h2.trans (by norm_num))),
        if_neg (not_lt.mpr (h2.trans (by norm_num))), if_neg (not_lt.mpr h2), if_pos h1]
    · intro h1
      unfold getCaffeineLevel
      rw [if_neg (not_lt.mpr (h1.trans (by norm_num))),
        if_neg (not_lt.mpr (h1.trans (by norm_num))),
        if_neg (not_lt.mpr (h1.trans (by norm_num))), if_neg (not_lt.mpr h1)]
  exact ⟨main, (main 100).2.2.1 (by norm_num) le_rfl⟩

/-- Witness for C3 at a concrete residual. -/
theorem getCaffeineLevel_thresholds_witness : getCaffeineLevel 150 = "High" :=
  (getCaffeineLevel_thresholds.1 150).2.1 (by norm_num) (by norm_num)

/-- C9: recomputing the residual only writes the derived scalar; the entry
list (every field, the order and the length) is unchanged. -/
theorem recompute_preserves_entries (now : DateTime) (s : ComponentState) :
    (recompute now s).entries = s.entries ∧
    (recompute now s).entries.length = s.entries.length :=
  ⟨rfl, rfl⟩

/-- C10: `addEntry` is a guarded no-op: with an empty date, time or amount
field, or no signed-in user, it issues no persistence call and leaves the
state (entries and form included) unchanged. -/
theorem addEntry_guard (user : Option String) (db : Except String String)
    (s : ComponentState)
    (h : s.newEntry.date = "" ∨ s.newEntry.time = "" ∨ s.newEntry.amount = ""
        ∨ user = none) :
    addEntry user db s = (s, []) := by
  unfold addEntry
  rw [if_pos h]

/-- Witness for C10: a signed-out caller with a fully filled form changes
nothing and issues no insert. -/
theorem addEntry_guard_witness :
    addEntry none (Except.ok "row1")
        ⟨[], ⟨"01/02", "08:00", "100"⟩, 0, false⟩
      = (⟨[], ⟨"01/02", "08:00", "100"⟩, 0, false⟩, []) :=
  addEntry_guard none (Except.ok "row1") ⟨[], ⟨"01/02", "08:00", "100"⟩, 0, false⟩
    (Or.inr (Or.inr (Or.inr rfl)))

/-- C5: half-life — for a single entry the residual at `h ≥ 6` elapsed hours
is half the residual at `h - 6` elapsed hours (`decay` is the single-entry
contribution, `max 0` the estimator's clamp). -/
theorem half_life (a : ℝ) (h : ℚ) (hh : 6 ≤ h) :
    max 0 (decay a h) = max 0 (decay a (h - 6)) / 2 := by
  have h0 : (0 : ℚ) ≤ h - 6 := by linarith
  have h1 : (0 : ℚ) ≤ h := by linarith
  unfold decay
  rw [if_pos h1, if_pos h0]
  have key : (1 / 2 : ℝ) ^ ((h : ℝ) / 6)
      = (1 / 2 : ℝ) ^ (((h - 6 : ℚ) : ℝ) / 6) * (1 / 2 : ℝ) ^ (1 : ℝ) := by
    rw [← Real.rpow_add (by norm_num : (0 : ℝ) < 1 / 2)]
    congr 1
    push_cast
    ring
  rw [key, Real.rpow_one]
  have harr : a * ((1 / 2 : ℝ) ^ (((h - 6 : ℚ) : ℝ) / 6) * (1 / 2))
      = a * (1 / 2 : ℝ) ^ (((h - 6 : ℚ) : ℝ) / 6) / 2 := by ring
  rw [harr]
  set y := a * (1 / 2 : ℝ) ^ (((h - 6 : ℚ) : ℝ) / 6) with hy
  rcases le_total y 0 with hc | hc
  · rw [max_eq_left (by linarith), max_eq_left hc]
    norm_num
  · rw [max_eq_right (by linarith), max_eq_right hc]

/-- Witness for C5 at `h = 6`. -/
theorem half_life_witness : max 0 (decay 100 6) = max 0 (decay 100 0) / 2 := by
  have h := half_life 100 6 (by norm_num)
  norm_num at h ⊢
  exact h

/- ### Calendar arithmetic -/

lemma isLeap_iff (y : ℤ) : isLeap y = true ↔ (y % 4 = 0 ∧ ¬ y % 100 = 0) ∨ y % 400 = 0 := by
  unfold isLeap
  simp [Bool.or_eq_true, Bool.and_eq_true, beq_iff_eq, Bool.not_eq_true']

lemma leapsBefore_succ (y : ℤ) :
    leapsBefore (y + 1) = leapsBefore y + (if isLeap y = true then 1 else 0) := by
  by_cases hL : isLeap y = true
  · rw [if_pos hL]
    rw [isLeap_iff] at hL
    unfold leapsBefore
    rcases hL with ⟨h4, h100⟩ | h400 <;> omega
  · rw [if_neg hL]
    have hL2 : ¬ ((y % 4 = 0 ∧ ¬ y % 100 = 0) ∨ y % 400 = 0) := by
      rw [← isLeap_iff]; exact hL
    push_neg at hL2
    unfold leapsBefore
    omega

lemma leapsBefore_sub (y : ℤ) :
    leapsBefore y - leapsBefore (y - 1) = if isLeap (y - 1) = true then 1 else 0 := by
  have h := leapsBefore_succ (y - 1)
  rw [sub_add_cancel] at h
  omega

lemma cumDays_nonneg (m : ℕ) : 0 ≤ cumDays m := by
  unfold cumDays
  split <;> norm_num

lemma month_day_bound (lYear lAdj : Bool) (m d : ℕ) (h1 : 1 ≤ m) (h2 : m ≤ 12)
    (hd : d ≤ daysInMonth lYear m) :
    cumDays m + (if lAdj = true ∧ 3 ≤ m then 1 else 0) + ((d : ℤ) - 1)
      ≤ 364 + (if lAdj = true then 1 else 0) := by
  interval_cases m <;> cases lYear <;> cases lAdj <;>
    simp [daysInMonth, cumDays] at hd ⊢ <;> omega

lemma toDays_year_diff_ge (y : ℤ) (m d : ℕ) :
    365 ≤ toDays y m d - toDays (y - 1) m d := by
  unfold toDays
  have hl := leapsBefore_sub y
  by_cases hm3 : 3 ≤ m <;> by_cases hA : isLeap y = true <;> by_cases hB : isLeap (y - 1) = true <;>
    simp [hm3, hA, hB] at hl ⊢ <;> omega

lemma toDays_prev_year_le (y : ℤ) (m d : ℕ) (h1 : 1 ≤ m) (h2 : m ≤ 12)
    (hd : d ≤ daysInMonth (isLeap y) m) :
    toDays (y - 1) m d ≤ 365 * (y - 1) + leapsBefore y - 1 := by
  unfold toDays
  have hb := month_day_bound (isLeap y) (isLeap (y - 1)) m d h1 h2 hd
  have hl := leapsBefore_sub y
  by_cases hm3 : 3 ≤ m <;> by_cases hB : isLeap (y - 1) = true <;>
    simp [hm3, hB] at hb hl ⊢ <;> omega

/- ### Properties of the parse and of the year adjustment -/

lemma parseEntry_some {year : ℤ} {ds ts : String} {dt : DateTime}
    (h : parseEntry year ds ts = some dt) :
    dt.year = year ∧ 1 ≤ dt.month ∧ dt.month ≤ 12 ∧ 1 ≤ dt.day ∧
      dt.day ≤ daysInMonth (isLeap year) dt.month ∧ dt.hour ≤ 23 ∧ dt.minute ≤ 59 := by
  unfold parseEntry at h
  split at h
  · split at h
    · rename_i m d hh mm heq hcond
      cases h
      exact ⟨rfl, hcond.1, hcond.2.1, hcond.2.2.1, hcond.2.2.2.1, hcond.2.2.2.2.1,
        hcond.2.2.2.2.2⟩
    · exact Option.noConfusion h
  · exact Option.noConfusion h

lemma adjusted_le_now (now : DateTime) (e : CaffeineEntry) (t : ℤ)
    (hd1 : 1 ≤ now.day)
    (hadj : adjustedMinutes now e = some t) :
    t ≤ toMinutes now := by
  unfold adjustedMinutes at hadj
  cases hp : parseEntry now.year e.date e.time with
  | none => rw [hp] at hadj; exact Option.noConfusion hadj
  | some dt =>
    rw [hp] at hadj
    simp only [Option.map_some', Option.some.injEq] at hadj
    obtain ⟨hyear, hem1, hem2, hed1, hed2, hehr, hemin⟩ := parseEntry_some hp
    unfold adjustEntryDate at hadj
    by_cases hgt : toMinutes now < toMinutes dt
    · rw [if_pos hgt] at hadj
      have e1 : t = 1440 * toDays (dt.year - 1) dt.month dt.day + timeOfDay dt := by
        rw [← hadj]; rfl
      have e2 : toMinutes now = 1440 * toDays now.year now.month now.day + timeOfDay now := rfl
      have e3 : toDays now.year now.month now.day
          = 365 * (now.year - 1) + leapsBefore now.year + cumDays now.month
            + (if isLeap now.year = true ∧ 3 ≤ now.month then 1 else 0)
            + ((now.day : ℤ) - 1) := rfl
      have h4 : 0 ≤ cumDays now.month := cumDays_nonneg _
      have h5 : 0 ≤ (if isLeap now.year = true ∧ 3 ≤ now.month then (1 : ℤ) else 0) := by
        split <;> norm_num
      have h6 : timeOfDay dt ≤ 1439 := by unfold timeOfDay; omega
      have h7 : 0 ≤ timeOfDay now := by unfold timeOfDay; positivity
      have hprev := toDays_prev_year_le dt.year dt.month dt.day hem1 hem2
        (by rw [hyear]; exact hed2)
      rw [hyear] at hprev e1
      omega
    · rw [if_neg hgt] at hadj
      omega

/- ### Evaluation helpers for the estimator -/

lemma entryResidual_of_adjusted {now : DateTime} {e : CaffeineEntry} {t : ℤ}
    (h : adjustedMinutes now e = some t) :
    entryResidual now e = decay e.amount (hoursElapsed (toMinutes now) t) := by
  unfold entryResidual
  rw [h]

lemma entryResidual_of_none {now : DateTime} {e : CaffeineEntry}
    (h : adjustedMinutes now e = none) :
    entryResidual now e = 0 := by
  unfold entryResidual
  rw [h]

lemma decay_nat (a : ℝ) (h : ℚ) (n : ℕ) (hh : 0 ≤ h) (he : (h : ℝ) / 6 = (n : ℝ)) :
    decay a h = a * (1 / 2 : ℝ) ^ n := by
  unfold decay
  rw [if_pos hh, he, Real.rpow_natCast]

lemma decay_le_pow (a : ℝ) (ha : 0 ≤ a) (x : ℚ) (hx : 0 ≤ x) (n : ℕ)
    (hb : (n : ℝ) ≤ (x : ℝ) / 6) :
    decay a x ≤ a * (1 / 2 : ℝ) ^ n := by
  unfold decay
  rw [if_pos hx]
  apply mul_le_mul_of_nonneg_left _ ha
  have h1 : (1 / 2 : ℝ) ^ ((x : ℝ) / 6) ≤ (1 / 2 : ℝ) ^ ((n : ℕ) : ℝ) :=
    Real.rpow_le_rpow_of_exponent_ge (by norm_num) (by norm_num) hb
  rwa [Real.rpow_natCast] at h1

/-- C2: the candidate timestamp carries `now`'s calendar year and the entry's
month/day/time; it is rolled back by exactly one year if and only if it is
strictly later than `now`. Consequently an entry dated one day after `now`'s
month/day, at a time-of-day later than `now`'s, contributes (for a
nonnegative amount) at most `amountMg * 0.5 ^ 1452` — at least 363 days of
decay, i.e. approximately zero rather than the full `amountMg`. -/
theorem year_rollback (now : DateTime) (e : CaffeineEntry) (dt : DateTime)
    (hparse : parseEntry now.year e.date e.time = some dt) :
    dt.year = now.year ∧
    (toMinutes now < toMinutes dt →
      adjustedMinutes now e = some (toMinutes { dt with year := dt.year - 1 })) ∧
    (toMinutes dt ≤ toMinutes now → adjustedMinutes now e = some (toMinutes dt)) ∧
    (toDays dt.year dt.month dt.day = toDays now.year now.month now.day + 1 →
      timeOfDay now < timeOfDay dt → 0 ≤ e.amount →
      entryResidual now e ≤ e.amount * (1 / 2 : ℝ) ^ (1452 : ℕ)) := by
  obtain ⟨hyear, hm1, hm2, hd1, hd2, hhr, hmin⟩ := parseEntry_some hparse
  refine ⟨hyear, ?_, ?_, ?_⟩
  · intro hgt
    unfold adjustedMinutes adjustEntryDate
    rw [hparse]
    simp [hgt]
  · intro hle
    unfold adjustedMinutes adjustEntryDate
    rw [hparse]
    simp [not_lt.mpr hle]
  · intro hday htod hamt
    have ecand : toMinutes dt = 1440 * toDays dt.year dt.month dt.day + timeOfDay dt := rfl
    have enow : toMinutes now = 1440 * toDays now.year now.month now.day + timeOfDay now := rfl
    have hgt : toMinutes now < toMinutes dt := by omega
    have hadj : adjustedMinutes now e = some (toMinutes { dt with year := dt.year - 1 }) := by
      unfold adjustedMinutes adjustEntryDate
      rw [hparse]
      simp [hgt]
    have eadj : toMinutes { dt with year := dt.year - 1 }
        = 1440 * toDays (dt.year - 1) dt.month dt.day + timeOfDay dt := rfl
    have hdiff := toDays_year_diff_ge dt.year dt.month dt.day
    have htodDt : timeOfDay dt ≤ 1439 := by unfold timeOfDay; omega
    have htodNow : 0 ≤ timeOfDay now := by unfold timeOfDay; positivity
    have helapsed : 522721 ≤ toMinutes now - toMinutes { dt with year := dt.year - 1 } := by
      omega
    rw [entryResidual_of_adjusted hadj]
    apply decay_le_pow e.amount hamt _ ?_ 1452 ?_
    · unfold hoursElapsed
      have h0 : (0 : ℤ) ≤ toMinutes now - toMinutes { dt with year := dt.year - 1 } := by omega
      have h0q : (0 : ℚ)
          ≤ ((toMinutes now - toMinutes { dt with year := dt.year - 1 } : ℤ) : ℚ) := by
        exact_mod_cast h0
      positivity
    · unfold hoursElapsed
      push_cast
      rw [div_div, le_div_iff₀ (by norm_num : (0 : ℝ) < 60 * 6)]
      have hc : (522721 : ℝ) ≤ ((toMinutes now : ℤ) : ℝ)
          - ((toMinutes { dt with year := dt.year - 1 } : ℤ) : ℝ) := by
        exact_mod_cast helapsed
      linarith

/-- Witness for C2: with `now` = 2024-03-10 14:00, the entry dated 03/11 at
15:00 (one day later, at a later time-of-day) contributes at most
`100 * 0.5 ^ 1452`. -/
theorem year_rollback_witness :
    entryResidual ⟨2024, 3, 10, 14, 0⟩ ⟨none, "03/11", "15:00", 100⟩
      ≤ 100 * (1 / 2 : ℝ) ^ (1452 : ℕ) := by
  have h := year_rollback ⟨2024, 3, 10, 14, 0⟩ ⟨none, "03/11", "15:00", 100⟩
    ⟨2024, 3, 11, 15, 0⟩ (by decide)
  exact h.2.2.2 (by decide) (by decide) (by norm_num)

lemma amount_lit (i : Option String) (d t : String) (a : ℝ) :
    (⟨i, d, t, a⟩ : CaffeineEntry).amount = a := rfl

/-- C7: with `now` = 2024-03-10 14:00, the 08:00 entry of 100 mg alone gives
residual 50 (six hours elapsed), the 14:00 entry alone gives 100 (zero hours
elapsed), the two together give 150, and the label of that sum is High. -/
theorem concrete_scenario :
    calculateRemainingCaffeine ⟨2024, 3, 10, 14, 0⟩ [⟨none, "03/10", "08:00", 100⟩] = 50 ∧
    calculateRemainingCaffeine ⟨2024, 3, 10, 14, 0⟩ [⟨none, "03/10", "14:00", 100⟩] = 100 ∧
    calculateRemainingCaffeine ⟨2024, 3, 10, 14, 0⟩
      [⟨none, "03/10", "08:00", 100⟩, ⟨none, "03/10", "14:00", 100⟩] = 150 ∧
    getCaffeineLevel (calculateRemainingCaffeine ⟨2024, 3, 10, 14, 0⟩
      [⟨none, "03/10", "08:00", 100⟩, ⟨none, "03/10", "14:00", 100⟩]) = "High" := by
  have hadj1 : adjustedMinutes ⟨2024, 3, 10, 14, 0⟩ ⟨none, "03/10", "08:00", 100⟩
      = some (toMinutes ⟨2024, 3, 10, 8, 0⟩) := by decide
  have hadj2 : adjustedMinutes ⟨2024, 3, 10, 14, 0⟩ ⟨none, "03/10", "14:00", 100⟩
      = some (toMinutes ⟨2024, 3, 10, 14, 0⟩) := by decide
  have hh1 : hoursElapsed (toMinutes ⟨2024, 3, 10, 14, 0⟩) (toMinutes ⟨2024, 3, 10, 8, 0⟩)
      = 6 := by
    unfold hoursElapsed
    rw [show toMinutes ⟨2024, 3, 10, 14, 0⟩ - toMinutes ⟨2024, 3, 10, 8, 0⟩ = (360 : ℤ)
      from by decide]
    norm_num
  have hh2 : hoursElapsed (toMinutes ⟨2024, 3, 10, 14, 0⟩) (toMinutes ⟨2024, 3, 10, 14, 0⟩)
      = 0 := by
    unfold hoursElapsed
    simp
  have hr1 : entryResidual ⟨2024, 3, 10, 14, 0⟩ ⟨none, "03/10", "08:00", 100⟩ = 50 := by
    rw [entryResidual_of_adjusted hadj1, amount_lit, hh1,
      decay_nat 100 6 1 (by norm_num) (by norm_num)]
    norm_num
  have hr2 : entryResidual ⟨2024, 3, 10, 14, 0⟩ ⟨none, "03/10", "14:00", 100⟩ = 100 := by
    rw [entryResidual_of_adjusted hadj2, amount_lit, hh2,
      decay_nat 100 0 0 (by norm_num) (by norm_num)]
    norm_num
  have hc1 : calculateRemainingCaffeine ⟨2024, 3, 10, 14, 0⟩
      [⟨none, "03/10", "08:00", 100⟩] = 50 := by
    rw [calc_eq_sum]
    simp [hr1]
  have hc2 : calculateRemainingCaffeine ⟨2024, 3, 10, 14, 0⟩
      [⟨none, "03/10", "14:00", 100⟩] = 100 := by
    rw [calc_eq_sum]
    simp [hr2]
  have hc3 : calculateRemainingCaffeine ⟨2024, 3, 10, 14, 0⟩
      [⟨none, "03/10", "08:00", 100⟩, ⟨none, "03/10", "14:00", 100⟩] = 150 := by
    rw [calc_eq_sum]
    simp [hr1, hr2]
    norm_num
  refine ⟨hc1, hc2, hc3, ?_⟩
  rw [hc3]
  unfold getCaffeineLevel
  rw [if_neg (by norm_num), if_pos (by norm_num)]

/-- C8: an entry whose date/time strings fail to parse is skipped — the
estimator still returns the sum over the remaining entries (and, being a
total function, it never aborts). -/
theorem skip_malformed (now : DateTime) (l1 l2 : List CaffeineEntry) (e : CaffeineEntry)
    (h : parseEntry now.year e.date e.time = none) :
    calculateRemainingCaffeine now (l1 ++ e :: l2)
      = calculateRemainingCaffeine now (l1 ++ l2) := by
  rw [calc_eq_sum, calc_eq_sum]
  have he : entryResidual now e = 0 :=
    entryResidual_of_none (by unfold adjustedMinutes; rw [h]; rfl)
  rw [List.map_append, List.map_append, List.map_cons, List.sum_append, List.sum_append,
    List.sum_cons, he, zero_add]

/-- Witness for C8: inserting a malformed entry leaves the residual of the
well-formed list unchanged. -/
theorem skip_malformed_witness :
    calculateRemainingCaffeine ⟨2024, 3, 10, 14, 0⟩
        ([⟨none, "03/10", "08:00", 100⟩] ++ ⟨none, "junk", "08:00", 50⟩ :: [])
      = calculateRemainingCaffeine ⟨2024, 3, 10, 14, 0⟩
          ([⟨none, "03/10", "08:00", 100⟩] ++ []) :=
  skip_malformed ⟨2024, 3, 10, 14, 0⟩ [⟨none, "03/10", "08:00", 100⟩] []
    ⟨none, "junk", "08:00", 50⟩ (by decide)

/- ### Evaluation of the estimator at the January instants used for C4 -/

lemma calc_jan1 :
    calculateRemainingCaffeine ⟨2024, 1, 1, 0, 0⟩ [⟨none, "01/02", "00:00", 100⟩]
      = 100 * (1 / 2 : ℝ) ^ (1456 : ℕ) := by
  have hadj : adjustedMinutes ⟨2024, 1, 1, 0, 0⟩ ⟨none, "01/02", "00:00", 100⟩
      = some (toMinutes ⟨2023, 1, 2, 0, 0⟩) := by decide
  have hh : hoursElapsed (toMinutes ⟨2024, 1, 1, 0, 0⟩) (toMinutes ⟨2023, 1, 2, 0, 0⟩)
      = 8736 := by
    unfold hoursElapsed
    rw [show toMinutes ⟨2024, 1, 1, 0, 0⟩ - toMinutes ⟨2023, 1, 2, 0, 0⟩ = (524160 : ℤ)
      from by decide]
    norm_num
  have hr : entryResidual ⟨2024, 1, 1, 0, 0⟩ ⟨none, "01/02", "00:00", 100⟩
      = 100 * (1 / 2 : ℝ) ^ (1456 : ℕ) := by
    rw [entryResidual_of_adjusted hadj, amount_lit, hh,
      decay_nat 100 8736 1456 (by norm_num) (by norm_num)]
  rw [calc_eq_sum]
  simp only [List.map_cons, List.map_nil, List.sum_cons, List.sum_nil, add_zero, hr]
  rw [max_eq_right (by positivity)]

lemma calc_jan3 :
    calculateRemainingCaffeine ⟨2024, 1, 3, 0, 0⟩ [⟨none, "01/02", "00:00", 100⟩]
      = 100 * (1 / 2 : ℝ) ^ (4 : ℕ) := by
  have hadj : adjustedMinutes ⟨2024, 1, 3, 0, 0⟩ ⟨none, "01/02", "00:00", 100⟩
      = some (toMinutes ⟨2024, 1, 2, 0, 0⟩) := by decide
  have hh : hoursElapsed (toMinutes ⟨2024, 1, 3, 0, 0⟩) (toMinutes ⟨2024, 1, 2, 0, 0⟩)
      = 24 := by
    unfold hoursElapsed
    rw [show toMinutes ⟨2024, 1, 3, 0, 0⟩ - toMinutes ⟨2024, 1, 2, 0, 0⟩ = (1440 : ℤ)
      from by decide]
    norm_num
  have hr : entryResidual ⟨2024, 1, 3, 0, 0⟩ ⟨none, "01/02", "00:00", 100⟩
      = 100 * (1 / 2 : ℝ) ^ (4 : ℕ) := by
    rw [entryResidual_of_adjusted hadj, amount_lit, hh,
      decay_nat 100 24 4 (by norm_num) (by norm_num)]
  rw [calc_eq_sum]
  simp only [List.map_cons, List.map_nil, List.sum_cons, List.sum_nil, add_zero, hr]
  rw [max_eq_right (by positivity)]

/-- Counterexample to C4 as stated: the entries are held fixed while `now`
advances from 2024-01-01 00:00 to 2024-01-03 00:00, yet the residual of the
single entry `01/02 00:00, 100 mg` increases (from `100 * 0.5 ^ 1456`, the
entry being read as 2023-01-02, to `100 * 0.5 ^ 4 = 6.25`, the entry now
being read as 2024-01-02): the residual does not strictly decrease as `now`
advances. -/
theorem monotone_decay_counterexample :
    toMinutes ⟨2024, 1, 1, 0, 0⟩ < toMinutes ⟨2024, 1, 3, 0, 0⟩ ∧
    calculateRemainingCaffeine ⟨2024, 1, 1, 0, 0⟩ [⟨none, "01/02", "00:00", 100⟩]
      < calculateRemainingCaffeine ⟨2024, 1, 3, 0, 0⟩ [⟨none, "01/02", "00:00", 100⟩] := by
  refine ⟨by decide, ?_⟩
  rw [calc_jan1, calc_jan3]
  have h := pow_lt_pow_right_of_lt_one₀ (by norm_num : (0 : ℝ) < 1 / 2) (by norm_num)
    (by norm_num : 4 < 1456)
  exact mul_lt_mul_of_pos_left h (by norm_num : (0 : ℝ) < 100)

lemma entryResidual_shift (now1 now2 : DateTime) (e : CaffeineEntry)
    (hd1 : 1 ≤ now1.day)
    (hle : toMinutes now1 ≤ toMinutes now2)
    (hadj : adjustedMinutes now1 e = adjustedMinutes now2 e) :
    entryResidual now2 e
      = (1 / 2 : ℝ) ^ (((hoursElapsed (toMinutes now2) (toMinutes now1) : ℚ) : ℝ) / 6)
          * entryResidual now1 e := by
  cases h1 : adjustedMinutes now1 e with
  | none =>
    have h2 : adjustedMinutes now2 e = none := by rw [← hadj]; exact h1
    rw [entryResidual_of_none h1, entryResidual_of_none h2, mul_zero]
  | some t =>
    have h2 : adjustedMinutes now2 e = some t := by rw [← hadj]; exact h1
    rw [entryResidual_of_adjusted h1, entryResidual_of_adjusted h2]
    have hle1 := adjusted_le_now now1 e t hd1 h1
    have hq1 : (0 : ℚ) ≤ hoursElapsed (toMinutes now1) t := by
      unfold hoursElapsed
      have h0 : (0 : ℚ) ≤ ((toMinutes now1 - t : ℤ) : ℚ) := by
        exact_mod_cast (by omega : (0 : ℤ) ≤ toMinutes now1 - t)
      positivity
    have hq2 : (0 : ℚ) ≤ hoursElapsed (toMinutes now2) t := by
      unfold hoursElapsed
      have h0 : (0 : ℚ) ≤ ((toMinutes now2 - t : ℤ) : ℚ) := by
        exact_mod_cast (by omega : (0 : ℤ) ≤ toMinutes now2 - t)
      positivity
    unfold decay
    rw [if_pos hq2, if_pos hq1]
    rw [show ((hoursElapsed (toMinutes now2) t : ℚ) : ℝ) / 6
        = ((hoursElapsed (toMinutes now2) (toMinutes now1) : ℚ) : ℝ) / 6
          + ((hoursElapsed (toMinutes now1) t : ℚ) : ℝ) / 6 from by
      unfold hoursElapsed; push_cast; ring]
    rw [Real.rpow_add (by norm_num : (0 : ℝ) < 1 / 2)]
    ring

/-- Amendment of C4: holding the entries fixed, the residual strictly
decreases from one instant to a later one provided every entry's
year-adjusted timestamp is the same at both instants (the year-inference
re-reads an entry's date relative to each `now`, so this can fail across the
entry's month/day or a year boundary) and the residual at the earlier
instant is positive (with an empty or fully-decayed-to-clamp list it stays
0); and, with elapsed time as the free variable, each entry's contribution
tends to 0 as its elapsed hours tend to infinity. -/
theorem residual_decay_amended :
    (∀ (entries : List CaffeineEntry) (now1 now2 : DateTime),
      1 ≤ now1.day →
      toMinutes now1 < toMinutes now2 →
      (∀ e ∈ entries, adjustedMinutes now1 e = adjustedMinutes now2 e) →
      0 < calculateRemainingCaffeine now1 entries →
      calculateRemainingCaffeine now2 entries < calculateRemainingCaffeine now1 entries) ∧
    (∀ a : ℝ, Tendsto (fun h : ℚ => decay a h) atTop (nhds 0)) := by
  constructor
  · intro entries now1 now2 hd hlt hadj hpos
    set c := (1 / 2 : ℝ) ^ (((hoursElapsed (toMinutes now2) (toMinutes now1) : ℚ) : ℝ) / 6)
      with hc
    have hdpos : (0 : ℚ) < hoursElapsed (toMinutes now2) (toMinutes now1) := by
      unfold hoursElapsed
      have h0 : (0 : ℚ) < ((toMinutes now2 - toMinutes now1 : ℤ) : ℚ) := by
        exact_mod_cast (by omega : (0 : ℤ) < toMinutes now2 - toMinutes now1)
      positivity
    have hc0 : 0 < c := Real.rpow_pos_of_pos (by norm_num) _
    have hc1 : c < 1 := by
      apply Real.rpow_lt_one (by norm_num) (by norm_num)
      have hr : (0 : ℝ) < ((hoursElapsed (toMinutes now2) (toMinutes now1) : ℚ) : ℝ) := by
        exact_mod_cast hdpos
      linarith
    have hmap : entries.map (entryResidual now2)
        = entries.map (fun e => c * entryResidual now1 e) := by
      apply List.map_congr_left
      intro e he
      exact entryResidual_shift now1 now2 e hd (le_of_lt hlt) (hadj e he)
    rw [calc_eq_sum] at hpos
    rw [calc_eq_sum, calc_eq_sum, hmap, List.sum_map_mul_left]
    have hmax : max 0 (c * (entries.map (entryResidual now1)).sum)
        = c * max 0 ((entries.map (entryResidual now1)).sum) := by
      rw [mul_max_of_nonneg _ _ (le_of_lt hc0), mul_zero]
    rw [hmax]
    exact mul_lt_of_lt_one_left hpos hc1
  · intro a
    have h1 : Tendsto (fun h : ℚ => (h : ℝ)) atTop atTop :=
      tendsto_ratCast_atTop_iff.mpr tendsto_id
    have h2 : Tendsto (fun h : ℚ => (h : ℝ) / 6) atTop atTop :=
      h1.atTop_div_const (by norm_num)
    have h3 : Tendsto (fun x : ℝ => (1 / 2 : ℝ) ^ x) atTop (nhds 0) :=
      tendsto_rpow_atTop_of_base_lt_one _ (by norm_num) (by norm_num)
    have h4 : Tendsto (fun h : ℚ => a * (1 / 2 : ℝ) ^ ((h : ℝ) / 6)) atTop (nhds (a * 0)) :=
      (h3.comp h2).const_mul a
    rw [mul_zero] at h4
    have hE : (fun h : ℚ => a * (1 / 2 : ℝ) ^ ((h : ℝ) / 6))
        =ᶠ[atTop] (fun h : ℚ => decay a h) := by
      filter_upwards [eventually_ge_atTop (0 : ℚ)] with x hx
      unfold decay
      rw [if_pos hx]
    exact h4.congr' hE

/-- Witness for the amended C4: six hours after 2024-01-03 00:00 the same
entry's year-adjusted timestamp is unchanged and the residual has strictly
decreased. -/
theorem residual_decay_amended_witness :
    calculateRemainingCaffeine ⟨2024, 1, 3, 6, 0⟩ [⟨none, "01/02", "00:00", 100⟩]
      < calculateRemainingCaffeine ⟨2024, 1, 3, 0, 0⟩ [⟨none, "01/02", "00:00", 100⟩] :=
  residual_decay_amended.1 [⟨none, "01/02", "00:00", 100⟩] ⟨2024, 1, 3, 0, 0⟩
    ⟨2024, 1, 3, 6, 0⟩ (by norm_num) (by decide)
    (by
      intro e he
      rw [List.mem_singleton] at he
      subst he
      decide)
    (by rw [calc_jan3]; positivity)
